import Mathlib

/-!
# Shallow embedding of the torrust SOCKS5-over-Tor gateway

This file embeds the core of `src/proxy.rs` (the SOCKS5 dispatcher
`handle_socks_connection`, the isolation registry, the failure reply, and
the zeroizing relay loop `zeroizing_copy`) and of `src/dns.rs`
(`handle_dns_connection`) as pure Lean functions, and proves the spec's
testable properties about them.

Modelling conventions:
* Bytes are `Nat`s; a client byte stream is a `List Nat` consumed in order
  by `read_exact`-style pattern matches.  `readExact n s` succeeds exactly
  when `s` carries at least `n` more bytes; a stream that runs dry models a
  read that fails (peer closed) or stalls until the handshake timeout.
* The Tokio 10-second timeout wrapper in `handle_socks_connection`
  (source lines 91-200) encloses the greeting, method selection,
  sub-negotiation and request parsing, and nothing after it.  Events of the
  dispatcher trace carry a `timed : Bool` flag recording whether the
  operation they model is executed inside that wrapper.  Timeout expiry is
  an oracle `Option Nat`: `some k` means the timer fired while the client
  stalled, after `k` handshake replies had already been flushed.
* `IsolationToken::new()` hands out globally fresh opaque tokens; we model
  tokens as `Nat`s, with `0` the process-wide default token created at
  startup and a counter `nextToken` (starting at `1`) for freshness.
* `std::collections::hash_map::DefaultHasher` (SipHash-1-3) is an external
  library dependency; we model it as a concrete deterministic 64-bit
  mixing function over the fed bytes and lengths.  All claims about it
  depend only on it being a fixed deterministic function.
-/

set_option autoImplicit false

namespace Torrust

/-- `read_exact(n)` on a byte stream: take `n` bytes or fail. -/
def readExact (n : Nat) (s : List Nat) : Option (List Nat × List Nat) :=
  if n ≤ s.length then some (s.take n, s.drop n) else none

/-- One mixing step of the modelled 64-bit hasher. -/
def hashStep (h b : Nat) : Nat := (h * 1099511628211 + b + 1) % 2 ^ 64

/-- Feed a byte sequence to the modelled hasher state. -/
def hashBytes (h : Nat) (bs : List Nat) : Nat := bs.foldl hashStep h

/-- `Hash` for a Rust byte vector / string feeds the bytes and then the
length, keeping `("ab","c")` and `("a","bc")` distinct. -/
def hashChunk (h : Nat) (bs : List Nat) : Nat := hashStep (hashBytes h bs) bs.length

/-- Model of lines 143-146 of `proxy.rs`: `DefaultHasher::new()`, feed
`uname`, feed `passwd`, `finish()`. -/
def credHashFn (uname passwd : List Nat) : Nat :=
  hashChunk (hashChunk 14695981039346656037 uname) passwd

/-- Parsed destination of a CONNECT request: the code turns an `atyp 0x01`
address into a dotted string and keeps a domain as a (lossily decoded)
string; we keep the raw bytes, which determine both. -/
inductive SocksHost where
  | ipv4 (a b c d : Nat)
  | name (bs : List Nat)
deriving DecidableEq, Repr

/-- Byte encoding of the host string that lines 229-231 of `proxy.rs` feed
to the hasher when `auto_isolate_domains` is on. -/
def hostBytes : SocksHost → List Nat
  | SocksHost.ipv4 a b c d => [1, a, b, c, d]
  | SocksHost.name bs => 3 :: bs

/-- Model of `hash(destination_host)` (lines 229-231 of `proxy.rs`). -/
def hostHash (h : SocksHost) : Nat := hashChunk 14695981039346656037 (hostBytes h)

/-! ## Isolation registry (lines 216-243 of `proxy.rs`) -/

/-- The process-wide `Arc<Mutex<HashMap<u64, IsolationToken>>>` plus the
fresh-token counter modelling the global uniqueness of
`IsolationToken::new()`. -/
structure IsolationRegistry where
  entries : List (Nat × Nat)
  nextToken : Nat
deriving DecidableEq, Repr

/-- The `default_token` created once at server start (line 53). -/
def defaultTokenId : Nat := 0

/-- Registry state at server start: empty map, first fresh token is `1`. -/
def initialRegistry : IsolationRegistry := ⟨[], 1⟩

/-- `HashMap` lookup on the association-list model. -/
def lookupTok : List (Nat × Nat) → Nat → Option Nat
  | [], _ => none
  | (k, t) :: es, key => if key = k then some t else lookupTok es key

/-- The eviction check `if map.len() > 1000 { map.clear(); }` that opens
every locked registry access in `handle_socks_connection`. -/
def clearIf (r : IsolationRegistry) : IsolationRegistry :=
  if 1000 < r.entries.length then ⟨[], r.nextToken⟩ else r

/-- Model of the locked registry access in `handle_socks_connection`:
`if map.len() > 1000 { map.clear(); }` then
`map.entry(key).or_insert_with(IsolationToken::new).clone()`. -/
def getOrInsert (r : IsolationRegistry) (key : Nat) : Nat × IsolationRegistry :=
  let r1 := clearIf r
  match lookupTok r1.entries key with
  | some t => (t, r1)
  | none => (r1.nextToken, ⟨(key, r1.nextToken) :: r1.entries, r1.nextToken + 1⟩)

/-- The `stream_token` selection (lines 216-243): credentials hash first,
else domain hash when `auto_isolate` is on, else the shared default. -/
def selectToken (r : IsolationRegistry) (credHash : Option Nat) (autoIsolate : Bool)
    (host : SocksHost) : Nat × IsolationRegistry :=
  match credHash with
  | some h => getOrInsert r h
  | none =>
    if autoIsolate then getOrInsert r (hostHash host)
    else (defaultTokenId, r)

/-- The isolation key of a session, when it has one (glossary: credential
hash, or destination-host hash under `auto_isolate_domains`; sessions
routed over the shared default token have no key). -/
def sessionKey (credHash : Option Nat) (autoIsolate : Bool) (host : SocksHost) : Option Nat :=
  match credHash with
  | some h => some h
  | none => if autoIsolate then some (hostHash host) else none

/-- One registry interaction of a session: `none` is a keyless session
(shared default token), `some key` consults the registry. -/
def sessionStep (r : IsolationRegistry) : Option Nat → Nat × IsolationRegistry
  | none => (defaultTokenId, r)
  | some key => getOrInsert r key

/-- A sequence of sessions hitting the shared registry, in order; returns
the (key, token) pair each session hands to the overlay connect call. -/
def runKeys : IsolationRegistry → List (Option Nat) → List (Option Nat × Nat) × IsolationRegistry
  | r, [] => ([], r)
  | r, k :: ks =>
    let (t, r1) := sessionStep r k
    let (l, r2) := runKeys r1 ks
    ((k, t) :: l, r2)

/-- Registry sanity: stored tokens are positive and below the fresh-token
counter, and distinct keys hold distinct tokens. -/
def RegInv (r : IsolationRegistry) : Prop :=
  (∀ p ∈ r.entries, 1 ≤ p.2 ∧ p.2 < r.nextToken) ∧
  (∀ p ∈ r.entries, ∀ q ∈ r.entries, p.2 = q.2 → p.1 = q.1) ∧
  1 ≤ r.nextToken

/-- A token `t` bound to `key`: positive, already allocated, and never held
by an entry for another key.  This survives every later registry access. -/
def TokProtected (key t : Nat) (r : IsolationRegistry) : Prop :=
  1 ≤ t ∧ t < r.nextToken ∧ ∀ p ∈ r.entries, p.2 = t → p.1 = key

/-- A concrete registry holding 1001 entries, used to witness the clearing
branch of the capacity policy. -/
def overfullRegistry : IsolationRegistry :=
  ⟨(List.range 1001).map fun i => (i, i + 1), 2000⟩

/-- Decidable record that a run of sessions never triggers the eviction
clear: every registry access happens at 1000 entries or fewer. -/
def noClearRun : IsolationRegistry → List (Option Nat) → Bool
  | _, [] => true
  | r, k :: ks =>
    decide (r.entries.length ≤ 1000) && noClearRun ((sessionStep r k).2) ks

/-! ## SOCKS5 handshake phase (lines 91-200 of `proxy.rs`) -/

/-- Method selection (lines 106-113): prefer `0x02`, else `0x00`,
else `0xFF`. -/
def selectAuthMethod (methods : List Nat) : Nat :=
  if 2 ∈ methods then 2 else if 0 ∈ methods then 0 else 255

/-- Username/password sub-negotiation (lines 128-155).  Returns the replies
written, the buffers zeroized (`auth_ver`, `uname`, `plen_buf`, `passwd`),
the credential hash, and the unconsumed stream.  The version byte and the
credential values are never inspected. -/
def subnegotiate (s : List Nat) :
    Option (List (List Nat) × List (List Nat) × Nat × List Nat) :=
  match s with
  | ver :: ulen :: s1 =>
    match readExact ulen s1 with
    | none => none
    | some (uname, s2) =>
      match s2 with
      | plen :: s3 =>
        match readExact plen s3 with
        | none => none
        | some (passwd, s4) =>
          some ([[1, 0]], [[ver, ulen], uname, [plen], passwd],
                credHashFn uname passwd, s4)
      | [] => none
  | _ => none

/-- Destination parsing by address type (lines 168-197): `0x01` is 4 address
bytes and a big-endian port, `0x03` is a length-prefixed name and a port,
everything else is `Err("Unsupported SOCKS address type")`. -/
def parseDest (atyp : Nat) (s : List Nat) : Option (SocksHost × Nat × List Nat) :=
  if atyp = 1 then
    match s with
    | a :: b :: c :: d :: p1 :: p2 :: rest =>
      some (SocksHost.ipv4 a b c d, p1 * 256 + p2, rest)
    | _ => none
  else if atyp = 3 then
    match s with
    | l :: s1 =>
      match readExact l s1 with
      | none => none
      | some (dom, s2) =>
        match s2 with
        | p1 :: p2 :: rest => some (SocksHost.name dom, p1 * 256 + p2, rest)
        | _ => none
    | [] => none
  else none

/-- Outcome of the timed handshake phase: the replies written to the client
so far, and `some (host, port, cred_hash)` on success, `none` on any
protocol error or short read. -/
structure HandshakeOut where
  writes : List (List Nat)
  result : Option (SocksHost × Nat × Option Nat)
deriving DecidableEq, Repr

/-- Request phase (lines 157-199): `ver|cmd|rsv|atyp` header then the
destination; `rsv` is not inspected. -/
def requestPhase (ws : List (List Nat)) (credHash : Option Nat) (s : List Nat) :
    HandshakeOut :=
  match s with
  | rv :: cmd :: _rsv :: atyp :: s1 =>
    if rv = 5 ∧ cmd = 1 then
      match parseDest atyp s1 with
      | none => ⟨ws, none⟩
      | some (h, p, _rest) => ⟨ws, some (h, p, credHash)⟩
    else ⟨ws, none⟩
  | _ => ⟨ws, none⟩

/-- The whole timed handshake phase (the body of the
`timeout(Duration::from_secs(10), async { ... })` block,
lines 91-200 of `proxy.rs`). -/
def socksHandshake (s : List Nat) : HandshakeOut :=
  match s with
  | ver :: nmethods :: s1 =>
    if ver = 5 then
      match readExact nmethods s1 with
      | none => ⟨[], none⟩
      | some (methods, s2) =>
        let m := selectAuthMethod methods
        if m = 255 then ⟨[[5, 255]], none⟩
        else if m = 2 then
          match subnegotiate s2 with
          | none => ⟨[[5, m]], none⟩
          | some (ws, _zs, ch, s3) => requestPhase ([5, m] :: ws) (some ch) s3
        else requestPhase [[5, m]] none s2
    else ⟨[], none⟩
  | _ => ⟨[], none⟩

/-! ## Full dispatcher (lines 81-274 of `proxy.rs`) -/

/-- The uniform failure reply of `reply_failure` (lines 297-301). -/
def failureReply : List Nat := [5, 1, 0, 1, 0, 0, 0, 0, 0, 0]

/-- The success reply with zeroed BND fields (line 262). -/
def successReply : List Nat := [5, 0, 0, 1, 0, 0, 0, 0, 0, 0]

/-- Client-visible actions of one dispatcher run.  `timed` records whether
the action is executed inside the 10-second `timeout` wrapper. -/
inductive SocksEv where
  | write (bs : List Nat) (timed : Bool)
  | connect (host : SocksHost) (port : Nat) (token : Nat) (timed : Bool)
deriving DecidableEq, Repr

/-- The write payloads of a trace, in order. -/
def writesOf (evs : List SocksEv) : List (List Nat) :=
  evs.filterMap fun e =>
    match e with
    | SocksEv.write bs _ => some bs
    | _ => none

/-- The connect calls of a trace. -/
def connectsOf (evs : List SocksEv) : List (SocksHost × Nat × Nat × Bool) :=
  evs.filterMap fun e =>
    match e with
    | SocksEv.connect h p t b => some (h, p, t, b)
    | _ => none

/-- Model of `handle_socks_connection` (lines 81-274 of `proxy.rs`).
`timedOut = some k` means the 10-second timer expired while the client
stalled, after `k` of the handshake replies had been flushed; the `Err(_)`
arm (lines 209-213) then logs, sends `reply_failure` and returns, so the
pending handshake reads are dropped and no overlay call is made.
`connectOk` is the outcome of `tor.connect_with_prefs` (line 250). -/
def handle_socks_connection (input : List Nat) (autoIsolate : Bool)
    (timedOut : Option Nat) (connectOk : Bool) (r : IsolationRegistry) :
    List SocksEv × IsolationRegistry :=
  match timedOut with
  | some k =>
    ((((socksHandshake input).writes.take k).map fun bs => SocksEv.write bs true) ++
      [SocksEv.write failureReply false], r)
  | none =>
    let h := socksHandshake input
    let evs := h.writes.map fun bs => SocksEv.write bs true
    match h.result with
    | none => (evs ++ [SocksEv.write failureReply false], r)
    | some (host, port, credHash) =>
      let tr := selectToken r credHash autoIsolate host
      let reply := if connectOk then successReply else failureReply
      (evs ++ [SocksEv.connect host port tr.1 false, SocksEv.write reply false], tr.2)

/-! ## Zeroizing relay loop (`zeroizing_copy`, lines 277-295 of `proxy.rs`) -/

/-- One result of `reader.read(&mut buf)`: a nonempty chunk (`Ok(n)`),
end of stream (`Ok(0)`), or an I/O error (`Err`). -/
inductive ReadRes where
  | chunk (bs : List Nat)
  | eof
  | fail
deriving DecidableEq, Repr

/-- Operations performed by one splice-direction task, in order. -/
inductive CopyEv where
  | readCall (res : ReadRes)
  | writeAll (bs : List Nat) (ok : Bool)
  | zeroizeSlice (n : Nat)
  | zeroizeFull
deriving DecidableEq, Repr

/-- How the copy loop ended: `Ok(0)` break, early `return Err`, or the
modelled read sequence ran out while the loop was still going. -/
inductive CopyEnd where
  | eofDone
  | readErr
  | stalled
deriving DecidableEq, Repr

/-- The first read-half terminator in a read sequence. -/
def firstEnd : List ReadRes → CopyEnd
  | [] => CopyEnd.stalled
  | ReadRes.eof :: _ => CopyEnd.eofDone
  | ReadRes.fail :: _ => CopyEnd.readErr
  | ReadRes.chunk _ :: rs => firstEnd rs

/-- Model of `zeroizing_copy` (lines 277-295 of `proxy.rs`).  `reads` are
the successive outcomes of `reader.read`, `wres` the successive outcomes of
`writer.write_all` (whose `Result` the code discards with `let _ =`), and
`buf` the 8 KiB buffer.  Returns the operation trace, how the loop ended,
and the buffer contents at drop.  A failing read leaves the buffer as it
was (`return Err(e)` skips the final `buf.zeroize()`). -/
def zeroizing_copy : List ReadRes → List Bool → List Nat →
    List CopyEv × CopyEnd × List Nat
  | [], _, buf => ([], CopyEnd.stalled, buf)
  | ReadRes.eof :: _, _, buf =>
    ([CopyEv.readCall ReadRes.eof, CopyEv.zeroizeFull],
     CopyEnd.eofDone, List.replicate buf.length 0)
  | ReadRes.fail :: _, _, buf =>
    ([CopyEv.readCall ReadRes.fail], CopyEnd.readErr, buf)
  | ReadRes.chunk bs :: rs, wres, buf =>
    let ok := wres.headD true
    let buf1 := bs ++ buf.drop bs.length
    let written := buf1.take bs.length
    let buf2 := List.replicate bs.length 0 ++ buf1.drop bs.length
    let rec' := zeroizing_copy rs (wres.drop 1) buf2
    (CopyEv.readCall (ReadRes.chunk bs) :: CopyEv.writeAll written ok ::
       CopyEv.zeroizeSlice bs.length :: rec'.1, rec'.2.1, rec'.2.2)

/-- All chunks a reader hands back fit the fixed 8 KiB buffer — true of
every outcome of `reader.read(&mut buf)` on a `[u8; 8192]` buffer. -/
def chunksFit (reads : List ReadRes) : Bool :=
  reads.all fun rr =>
    match rr with
    | ReadRes.chunk bs => decide (bs.length ≤ 8192)
    | _ => true

/-! ## DNS forwarder (`handle_dns_connection`, lines 70-128 of `dns.rs`) -/

/-- `u16::from_be_bytes`. -/
def be16 (b1 b2 : Nat) : Nat := b1 * 256 + b2

/-- Model of `handle_dns_connection`.  `clientIn` is the client byte
stream, `connect1`/`connect2` the outcomes of the onion-resolver and
fallback `tor.connect` calls, and `overlayResp` the byte stream the overlay
stream yields.  Returns (bytes written to the client, bytes written to the
overlay, success flag). -/
def handle_dns_connection (clientIn : List Nat) (connect1 connect2 : Bool)
    (overlayResp : List Nat) : List (List Nat) × List (List Nat) × Bool :=
  match clientIn with
  | l1 :: l2 :: s1 =>
    let msgLen := be16 l1 l2
    if msgLen = 0 ∨ 4096 < msgLen then ([], [], false)
    else
      match readExact msgLen s1 with
      | none => ([], [], false)
      | some (dnsMsg, _) =>
        if connect1 ∨ connect2 then
          let owrites := [[l1, l2], dnsMsg]
          match overlayResp with
          | r1 :: r2 :: t1 =>
            let respLen := be16 r1 r2
            if respLen = 0 ∨ 4096 < respLen then ([], owrites, false)
            else
              match readExact respLen t1 with
              | none => ([], owrites, false)
              | some (resp, _) => ([[r1, r2], resp], owrites, true)
          | _ => ([], owrites, false)
        else ([], [], false)
  | _ => ([], [], false)

/-! ## Basic lemmas about the embedding -/

theorem readExact_exact (l rest : List Nat) :
    readExact l.length (l ++ rest) = some (l, rest) := by
  simp [readExact, List.take_left, List.drop_left]

@[simp] theorem writesOf_nil : writesOf [] = [] := rfl

@[simp] theorem writesOf_append (a b : List SocksEv) :
    writesOf (a ++ b) = writesOf a ++ writesOf b := by
  simp [writesOf]

@[simp] theorem writesOf_map_write (ws : List (List Nat)) (b : Bool) :
    writesOf (ws.map fun bs => SocksEv.write bs b) = ws := by
  induction ws with
  | nil => rfl
  | cons w ws ih => simp [writesOf] at ih ⊢; exact ih

@[simp] theorem writesOf_cons_write (bs : List Nat) (b : Bool) (evs : List SocksEv) :
    writesOf (SocksEv.write bs b :: evs) = bs :: writesOf evs := by
  simp [writesOf]

@[simp] theorem writesOf_cons_connect (h : SocksHost) (p t : Nat) (b : Bool)
    (evs : List SocksEv) :
    writesOf (SocksEv.connect h p t b :: evs) = writesOf evs := by
  simp [writesOf]

@[simp] theorem connectsOf_nil : connectsOf [] = [] := rfl

@[simp] theorem connectsOf_append (a b : List SocksEv) :
    connectsOf (a ++ b) = connectsOf a ++ connectsOf b := by
  simp [connectsOf]

@[simp] theorem connectsOf_map_write (ws : List (List Nat)) (b : Bool) :
    connectsOf (ws.map fun bs => SocksEv.write bs b) = [] := by
  induction ws with
  | nil => rfl
  | cons w ws ih => simp only [List.map_cons, connectsOf, List.filterMap_cons] at ih ⊢; exact ih

@[simp] theorem connectsOf_cons_write (bs : List Nat) (b : Bool) (evs : List SocksEv) :
    connectsOf (SocksEv.write bs b :: evs) = connectsOf evs := by
  simp [connectsOf]

@[simp] theorem connectsOf_cons_connect (h : SocksHost) (p t : Nat) (b : Bool)
    (evs : List SocksEv) :
    connectsOf (SocksEv.connect h p t b :: evs) = (h, p, t, b) :: connectsOf evs := by
  simp [connectsOf]

theorem selectAuthMethod_cases (methods : List Nat) :
    selectAuthMethod methods = 2 ∨ selectAuthMethod methods = 0 ∨
      selectAuthMethod methods = 255 := by
  unfold selectAuthMethod
  split
  · exact Or.inl rfl
  · split
    · exact Or.inr (Or.inl rfl)
    · exact Or.inr (Or.inr rfl)

theorem subnegotiate_writes (s : List Nat) (ws zs : List (List Nat)) (ch : Nat)
    (rest : List Nat) (h : subnegotiate s = some (ws, zs, ch, rest)) :
    ws = [[1, 0]] := by
  unfold subnegotiate at h
  repeat' split at h
  all_goals simp_all

theorem requestPhase_writes (ws : List (List Nat)) (ch : Option Nat) (s : List Nat) :
    (requestPhase ws ch s).writes = ws := by
  unfold requestPhase
  repeat' split
  all_goals rfl

/-- Every reply written during the timed handshake phase is a method
selection (`05 00`, `05 02`, `05 FF`) or the sub-negotiation success
(`01 00`); in particular none of them is a SOCKS reply-phase message. -/
theorem socksHandshake_writes_cases (s : List Nat) :
    ∀ w ∈ (socksHandshake s).writes,
      w = [5, 0] ∨ w = [5, 2] ∨ w = [5, 255] ∨ w = [1, 0] := by
  intro w hw
  unfold socksHandshake at hw
  rcases s with _ | ⟨ver, s⟩
  · simp at hw
  rcases s with _ | ⟨nm, s1⟩
  · simp at hw
  simp only at hw
  split at hw
  · rcases h : readExact nm s1 with _ | ⟨methods, s2⟩ <;> rw [h] at hw
    · simp at hw
    · simp only at hw
      rcases selectAuthMethod_cases methods with hm | hm | hm <;> rw [hm] at hw <;>
        norm_num at hw
      · rcases hsub : subnegotiate s2 with _ | ⟨⟨ws, zs, ch, s3⟩⟩ <;> rw [hsub] at hw
        · simp at hw
          simp [hw]
        · rw [requestPhase_writes] at hw
          rw [subnegotiate_writes s2 ws zs ch s3 hsub] at hw
          simp at hw
          rcases hw with hw | hw <;> simp [hw]
      · rw [requestPhase_writes] at hw
        simp at hw
        simp [hw]
      · simp [hw]
  · simp at hw

/-! ## Claim theorems -/

/-- C1.  Reply uniformity: whatever the client bytes, the timeout oracle and
the overlay outcome, the replies the dispatcher writes are a run of
handshake messages (`05 00`, `05 02`, `05 FF`, `01 00`) followed by exactly
one reply-phase message, which is `05 00 00 01 00 00 00 00 00 00` precisely
when the handshake succeeded in time and the overlay connect succeeded, and
`05 01 00 01 00 00 00 00 00 00` in every other case; no other reply bytes
are ever produced. -/
theorem reply_uniformity (input : List Nat) (autoIso : Bool) (timedOut : Option Nat)
    (connectOk : Bool) (r : IsolationRegistry) :
    ∃ pre rep,
      writesOf (handle_socks_connection input autoIso timedOut connectOk r).1 =
        pre ++ [rep] ∧
      (∀ w ∈ pre, w = [5, 0] ∨ w = [5, 2] ∨ w = [5, 255] ∨ w = [1, 0]) ∧
      (rep = successReply ∨ rep = failureReply) ∧
      (rep = successReply ↔
        timedOut = none ∧ (socksHandshake input).result ≠ none ∧ connectOk = true) := by
  rcases timedOut with _ | k
  · rcases hres : (socksHandshake input).result with _ | ⟨host, port, ch⟩
    · refine ⟨(socksHandshake input).writes, failureReply, ?_, ?_, Or.inr rfl, ?_⟩
      · simp [handle_socks_connection, hres]
      · exact socksHandshake_writes_cases input
      · simp [hres, failureReply, successReply]
    · cases connectOk
      · refine ⟨(socksHandshake input).writes, failureReply, ?_, ?_, Or.inr rfl, ?_⟩
        · simp [handle_socks_connection, hres]
        · exact socksHandshake_writes_cases input
        · simp [failureReply, successReply]
      · refine ⟨(socksHandshake input).writes, successReply, ?_, ?_, Or.inl rfl, ?_⟩
        · simp [handle_socks_connection, hres]
        · exact socksHandshake_writes_cases input
        · simp [hres]
  · refine ⟨(socksHandshake input).writes.take k, failureReply, ?_, ?_, Or.inr rfl, ?_⟩
    · simp [handle_socks_connection, ← List.map_take]
    · intro w hw
      exact socksHandshake_writes_cases input w (List.take_subset k _ hw)
    · simp [failureReply, successReply]

/-- C2 counterexample.  A fully well-formed IPv6 CONNECT request
(greeting `05 01 00`, request `05 01 00 04`, a 16-byte address ::1 and port
443) is rejected by the request parser: `handle_socks_connection` has no
arm for `atyp 0x04` and falls to `Err("Unsupported SOCKS address type")`. -/
theorem ipv6_unsupported_counterexample :
    (socksHandshake ([5, 1, 0] ++ [5, 1, 0, 4] ++
        [0, 0, 0, 0, 0, 0, 0, 0, 0, 0, 0, 0, 0, 0, 0, 1] ++ [1, 187])).result = none := by
  decide

/-- C2 amended.  The request parser supports only address types `0x01`
(IPv4: 4 address bytes and a big-endian port) and `0x03` (domain name:
length-prefixed name and a port); every other address type — including
`0x04` (IPv6) — is rejected, which surfaces as the generic failure reply. -/
theorem address_types_amended :
    (∀ atyp s, atyp ≠ 1 → atyp ≠ 3 → parseDest atyp s = none) ∧
    (∀ a b c d p1 p2 rest, parseDest 1 (a :: b :: c :: d :: p1 :: p2 :: rest) =
        some (SocksHost.ipv4 a b c d, p1 * 256 + p2, rest)) ∧
    (∀ dom p1 p2 rest, parseDest 3 (dom.length :: (dom ++ p1 :: p2 :: rest)) =
        some (SocksHost.name dom, p1 * 256 + p2, rest)) := by
  refine ⟨?_, ?_, ?_⟩
  · intro atyp s h1 h3
    simp [parseDest, h1, h3]
  · intro a b c d p1 p2 rest
    simp [parseDest]
  · intro dom p1 p2 rest
    simp [parseDest, readExact_exact]

/-- Witness for C2's amended theorem at `atyp = 0x04`. -/
theorem address_types_amended_witness :
    (4 : Nat) ≠ 1 ∧ (4 : Nat) ≠ 3 ∧
      parseDest 4 [0, 0, 0, 0, 0, 0, 0, 0, 0, 0, 0, 0, 0, 0, 0, 1, 1, 187] = none :=
  ⟨by decide, by decide,
    address_types_amended.1 4 [0, 0, 0, 0, 0, 0, 0, 0, 0, 0, 0, 0, 0, 0, 0, 1, 1, 187]
      (by decide) (by decide)⟩

/-- C4.  Isolation-token precedence: a session whose handshake parses to
`(host, port, cred_hash)` makes exactly one overlay connect call, to that
destination, and its token is the registry entry keyed by the credential
hash when one was produced, else the registry entry keyed by the
destination-host hash when `auto_isolate_domains` is on, else the shared
default token. -/
theorem token_precedence (input : List Nat) (autoIso : Bool) (connectOk : Bool)
    (r : IsolationRegistry) (host : SocksHost) (port : Nat) (ch : Option Nat)
    (hres : (socksHandshake input).result = some (host, port, ch)) :
    connectsOf (handle_socks_connection input autoIso none connectOk r).1 =
      [(host, port,
        (match ch with
         | some h => (getOrInsert r h).1
         | none => if autoIso then (getOrInsert r (hostHash host)).1 else defaultTokenId),
        false)] := by
  rcases ch with _ | h
  · by_cases ha : autoIso <;> simp [handle_socks_connection, hres, selectToken, ha]
  · simp [handle_socks_connection, hres, selectToken]

/-- Witness for C4: a no-auth CONNECT to `example.com:443` with
`auto_isolate_domains` off uses the shared default token. -/
theorem token_precedence_witness :
    (socksHandshake ([5, 1, 0] ++ [5, 1, 0, 3, 11] ++
        [101, 120, 97, 109, 112, 108, 101, 46, 99, 111, 109] ++ [1, 187])).result =
      some (SocksHost.name [101, 120, 97, 109, 112, 108, 101, 46, 99, 111, 109],
        443, none) ∧
    connectsOf (handle_socks_connection ([5, 1, 0] ++ [5, 1, 0, 3, 11] ++
        [101, 120, 97, 109, 112, 108, 101, 46, 99, 111, 109] ++ [1, 187])
        false none true initialRegistry).1 =
      [(SocksHost.name [101, 120, 97, 109, 112, 108, 101, 46, 99, 111, 109],
        443, defaultTokenId, false)] :=
  ⟨by decide,
    token_precedence _ false true initialRegistry _ 443 none (by decide)⟩

/-- C8.  No-leak on error: if the handshake phase fails (any malformed
greeting or request, unacceptable method set, unsupported command or
address type, or a short read) or the handshake timer expires, the
dispatcher makes zero overlay connect calls. -/
theorem no_leak_on_error (input : List Nat) (autoIso : Bool) (timedOut : Option Nat)
    (connectOk : Bool) (r : IsolationRegistry)
    (h : (socksHandshake input).result = none ∨ timedOut ≠ none) :
    connectsOf (handle_socks_connection input autoIso timedOut connectOk r).1 = [] := by
  rcases timedOut with _ | k
  · rcases h with h | h
    · simp [handle_socks_connection, h]
    · simp at h
  · simp [handle_socks_connection, ← List.map_take]

/-- Witness for C8: a client greeting with SOCKS version 4 causes a
protocol error and no overlay connect call. -/
theorem no_leak_on_error_witness :
    ((socksHandshake [4, 1, 0]).result = none ∨ (none : Option Nat) ≠ none) ∧
      connectsOf (handle_socks_connection [4, 1, 0] false none true initialRegistry).1 =
        [] :=
  ⟨Or.inl (by decide),
    no_leak_on_error [4, 1, 0] false none true initialRegistry (Or.inl (by decide))⟩

/-- C9.  The username/password sub-negotiation validates nothing: for every
version byte and every username and password the read succeeds on, it
computes the 64-bit hash of the credential pair, zeroizes exactly the four
credential buffers it read, and replies `01 00`; no value of the version
byte or of the credentials makes it fail. -/
theorem subnegotiation_no_validation (ver : Nat) (uname passwd rest : List Nat) :
    subnegotiate ([ver, uname.length] ++ uname ++ [passwd.length] ++ passwd ++ rest) =
      some ([[1, 0]], [[ver, uname.length], uname, [passwd.length], passwd],
        credHashFn uname passwd, rest) := by
  simp only [List.append_assoc, List.cons_append, List.nil_append]
  simp [subnegotiate, readExact_exact]

/-- C10.  The DNS forwarder validates the response frame as well: whenever
the overlay response carries a 2-byte big-endian length prefix of 0 or of
more than 4096, the handler fails and writes nothing at all back to the
client. -/
theorem dns_response_validation (clientIn : List Nat) (c1 c2 : Bool)
    (r1 r2 : Nat) (t : List Nat)
    (hbad : be16 r1 r2 = 0 ∨ 4096 < be16 r1 r2) :
    (handle_dns_connection clientIn c1 c2 (r1 :: r2 :: t)).1 = [] ∧
      (handle_dns_connection clientIn c1 c2 (r1 :: r2 :: t)).2.2 = false := by
  rcases clientIn with _ | ⟨l1, rest1⟩
  · exact ⟨rfl, rfl⟩
  rcases rest1 with _ | ⟨l2, s1⟩
  · exact ⟨rfl, rfl⟩
  unfold handle_dns_connection
  by_cases hq : be16 l1 l2 = 0 ∨ 4096 < be16 l1 l2
  · simp [hq]
  · simp only [if_neg hq]
    rcases hre : readExact (be16 l1 l2) s1 with _ | ⟨msg, s2⟩
    · simp
    · by_cases hc : (c1 = true ∨ c2 = true)
      · simp [hc, hbad]
      · simp [hc]

/-- Witness for C10: a response frame with length prefix 0 is dropped
without a byte reaching the client. -/
theorem dns_response_validation_witness :
    (be16 0 0 = 0 ∨ 4096 < be16 0 0) ∧
      (handle_dns_connection [0, 1, 7] true true [0, 0, 9]).1 = [] ∧
      (handle_dns_connection [0, 1, 7] true true [0, 0, 9]).2.2 = false :=
  ⟨Or.inl (by decide),
    dns_response_validation [0, 1, 7] true true 0 0 [9] (Or.inl (by decide))⟩

/-- C6 counterexample.  In a complete no-auth CONNECT session the overlay
connect call is performed with `timed = false`: it is executed after the
`timeout(Duration::from_secs(10), ...)` block (source lines 91-200) has
already returned, so the 10-second budget does not cover isolation-token
selection or the overlay connect (states 4-5), contradicting the claim that
states 1-5 are all under `HANDSHAKE_TIMEOUT`. -/
theorem connect_outside_timeout_counterexample :
    SocksEv.connect
        (SocksHost.name [101, 120, 97, 109, 112, 108, 101, 46, 99, 111, 109]) 443
        defaultTokenId false ∈
      (handle_socks_connection ([5, 1, 0] ++ [5, 1, 0, 3, 11] ++
          [101, 120, 97, 109, 112, 108, 101, 46, 99, 111, 109] ++ [1, 187])
        false none true initialRegistry).1 := by
  decide

/-- C6 amended.  The 10-second timeout guards exactly the handshake phase
(greeting, method selection, sub-negotiation, request parsing): when it
expires the session is treated as a handshake failure — the pending reads
are dropped, no overlay connect call is made, and the client sees only the
already-flushed handshake replies followed by the generic failure reply;
the overlay connect call itself always runs outside the timed phase. -/
theorem handshake_timeout_amended (input : List Nat) (autoIso : Bool)
    (timedOut : Option Nat) (connectOk : Bool) (r : IsolationRegistry) :
    (∀ k, timedOut = some k →
      connectsOf (handle_socks_connection input autoIso timedOut connectOk r).1 = [] ∧
      writesOf (handle_socks_connection input autoIso timedOut connectOk r).1 =
        (socksHandshake input).writes.take k ++ [failureReply]) ∧
    (∀ h p t b, SocksEv.connect h p t b ∈
        (handle_socks_connection input autoIso timedOut connectOk r).1 → b = false) ∧
    (∀ bs, SocksEv.write bs true ∈
        (handle_socks_connection input autoIso timedOut connectOk r).1 →
      bs ∈ (socksHandshake input).writes) := by
  refine ⟨?_, ?_, ?_⟩
  · rintro k rfl
    constructor
    · simp [handle_socks_connection, ← List.map_take]
    · simp [handle_socks_connection, ← List.map_take]
  · intro h p t b hmem
    rcases timedOut with _ | k
    · rcases hres : (socksHandshake input).result with _ | ⟨⟨host, port, ch⟩⟩ <;>
        simp [handle_socks_connection, hres] at hmem
      exact hmem.2.2.2
    · simp [handle_socks_connection, ← List.map_take] at hmem
  · intro bs hmem
    rcases timedOut with _ | k
    · rcases hres : (socksHandshake input).result with _ | ⟨⟨host, port, ch⟩⟩ <;>
        simp [handle_socks_connection, hres] at hmem
      · exact hmem
      · exact hmem
    · simp [handle_socks_connection, ← List.map_take] at hmem
      exact List.take_subset k _ hmem

/-- Witness for C6's amended theorem: a stalled sub-negotiation times out
after the method reply was flushed, and a completed session's timed writes
all belong to the handshake phase. -/
theorem handshake_timeout_amended_witness :
    ((some 1 : Option Nat) = some 1) ∧
    (connectsOf (handle_socks_connection [5, 1, 2, 1, 4] false (some 1) true
        initialRegistry).1 = [] ∧
     writesOf (handle_socks_connection [5, 1, 2, 1, 4] false (some 1) true
        initialRegistry).1 =
       (socksHandshake [5, 1, 2, 1, 4]).writes.take 1 ++ [failureReply]) ∧
    SocksEv.write [5, 0] true ∈
      (handle_socks_connection [5, 1, 0, 5, 1, 0, 1, 8, 8, 8, 8, 0, 53] false none true
        initialRegistry).1 ∧
    [5, 0] ∈ (socksHandshake [5, 1, 0, 5, 1, 0, 1, 8, 8, 8, 8, 0, 53]).writes :=
  ⟨rfl,
    (handshake_timeout_amended [5, 1, 2, 1, 4] false (some 1) true initialRegistry).1
      1 rfl,
    by decide,
    (handshake_timeout_amended [5, 1, 0, 5, 1, 0, 1, 8, 8, 8, 8, 0, 53] false none true
        initialRegistry).2.2 [5, 0] (by decide)⟩

/-! ## Registry lemmas -/

theorem clearIf_of_le (r : IsolationRegistry) (h : r.entries.length ≤ 1000) :
    clearIf r = r := if_neg (Nat.not_lt.mpr h)

theorem clearIf_of_gt (r : IsolationRegistry) (h : 1000 < r.entries.length) :
    clearIf r = ⟨[], r.nextToken⟩ := if_pos h

theorem lookupTok_eq_none (es : List (Nat × Nat)) (key : Nat)
    (h : key ∉ es.map Prod.fst) : lookupTok es key = none := by
  induction es with
  | nil => rfl
  | cons e es ih =>
    rcases e with ⟨k, t⟩
    simp only [List.map_cons, List.mem_cons] at h
    push_neg at h
    simp [lookupTok, h.1, ih h.2]

theorem getOrInsert_fresh (r : IsolationRegistry) (key : Nat)
    (hlen : r.entries.length ≤ 1000) (hmem : key ∉ r.entries.map Prod.fst) :
    getOrInsert r key =
      (r.nextToken, ⟨(key, r.nextToken) :: r.entries, r.nextToken + 1⟩) := by
  unfold getOrInsert
  rw [clearIf_of_le r hlen]
  simp [lookupTok_eq_none _ _ hmem]

@[simp] theorem runKeys_nil (r : IsolationRegistry) : runKeys r [] = ([], r) := rfl

theorem runKeys_cons (r : IsolationRegistry) (k : Option Nat) (ks : List (Option Nat)) :
    runKeys r (k :: ks) =
      ((k, (sessionStep r k).1) :: (runKeys (sessionStep r k).2 ks).1,
       (runKeys (sessionStep r k).2 ks).2) := rfl

theorem runKeys_append (r : IsolationRegistry) (xs ys : List (Option Nat)) :
    runKeys r (xs ++ ys) =
      ((runKeys r xs).1 ++ (runKeys (runKeys r xs).2 ys).1,
       (runKeys (runKeys r xs).2 ys).2) := by
  induction xs generalizing r with
  | nil => simp
  | cons x xs ih => simp [runKeys_cons, ih]

/-- Running a list of pairwise-distinct keys that are all absent from a
registry that stays within the clearing threshold inserts each of them with
a fresh token. -/
theorem runKeys_fresh (ks : List Nat) (r : IsolationRegistry)
    (hnd : ks.Nodup) (hfresh : ∀ k ∈ ks, k ∉ r.entries.map Prod.fst)
    (hlen : r.entries.length + ks.length ≤ 1001) :
    ((runKeys r (ks.map some)).2).entries.map Prod.fst =
        ks.reverse ++ r.entries.map Prod.fst ∧
      ((runKeys r (ks.map some)).2).nextToken = r.nextToken + ks.length := by
  induction ks generalizing r with
  | nil => simp
  | cons k ks ih =>
    have hlen0 : r.entries.length ≤ 1000 := by
      simp only [List.length_cons] at hlen
      omega
    have hstep := getOrInsert_fresh r k hlen0 (hfresh k (List.mem_cons_self k ks))
    have hnd' := List.nodup_cons.mp hnd
    have hrec := ih ⟨(k, r.nextToken) :: r.entries, r.nextToken + 1⟩
      hnd'.2
      (by
        intro k' hk'
        simp only [List.map_cons, List.mem_cons]
        push_neg
        refine ⟨fun he => hnd'.1 (he ▸ hk'), hfresh k' (List.mem_cons_of_mem _ hk')⟩)
      (by
        show ((k, r.nextToken) :: r.entries).length + ks.length ≤ 1001
        simp only [List.length_cons]
        simp only [List.length_cons] at hlen
        omega)
    simp only [List.map_cons, runKeys_cons, sessionStep, hstep] at *
    refine ⟨?_, ?_⟩
    · rw [hrec.1]
      simp [List.append_assoc]
    · rw [hrec.2]
      simp only [List.length_cons]
      omega

theorem sessionStep_length_le (r : IsolationRegistry) (k : Option Nat)
    (h : r.entries.length ≤ 1001) :
    ((sessionStep r k).2).entries.length ≤ 1001 := by
  rcases k with _ | key
  · simpa [sessionStep] using h
  · unfold sessionStep getOrInsert
    by_cases hl : 1000 < r.entries.length
    · rw [clearIf_of_gt r hl]
      simp [lookupTok]
    · rw [clearIf_of_le r (Nat.le_of_not_lt hl)]
      rcases hlook : lookupTok r.entries key with _ | t <;> simp [hlook] <;> omega

theorem runKeys_length_le (ks : List (Option Nat)) (r : IsolationRegistry)
    (h : r.entries.length ≤ 1001) :
    ((runKeys r ks).2).entries.length ≤ 1001 := by
  induction ks generalizing r with
  | nil => simpa using h
  | cons k ks ih =>
    simp only [runKeys_cons]
    exact ih _ (sessionStep_length_le r k h)

/-- Running `n ≤ 1001` distinct fresh keys from the startup registry gives
a map of exactly `n` entries: no clear fires on the way. -/
theorem runKeys_range_length (n : Nat) (hn : n ≤ 1001) :
    ((runKeys initialRegistry ((List.range n).map some)).2).entries.length = n := by
  have h := runKeys_fresh (List.range n) initialRegistry (List.nodup_range n)
    (fun k hk => by simp [initialRegistry])
    (by
      show ([] : List (Nat × Nat)).length + (List.range n).length ≤ 1001
      simpa [List.length_range] using hn)
  have e := congrArg List.length h.1
  rw [List.length_map] at e
  rw [e, List.length_append, List.length_reverse, List.length_range]
  show n + (List.map Prod.fst ([] : List (Nat × Nat))).length = n
  simp

/-- C5 counterexample.  Starting from the empty registry, 1000 sessions
with distinct isolation keys fill the map to exactly the 1000-entry
capacity, and the next insert — finding the registry at capacity — does not
clear it: the size becomes 1001, not 1, because the code clears only when
`map.len() > 1000` holds strictly. -/
theorem registry_bound_counterexample :
    ((runKeys initialRegistry ((List.range 1000).map some)).2).entries.length = 1000 ∧
    ((runKeys initialRegistry ((List.range 1001).map some)).2).entries.length = 1001 :=
  ⟨runKeys_range_length 1000 (by omega), runKeys_range_length 1001 (by omega)⟩

/-- C5 amended.  The registry size never exceeds 1001 at any point between
lock releases, and an access that finds the map with strictly more than
1000 entries clears it entirely before the insert, leaving exactly one
entry. -/
theorem registry_bound_amended :
    (∀ ks, ((runKeys initialRegistry ks).2).entries.length ≤ 1001) ∧
    (∀ r key, 1000 < r.entries.length →
      ((getOrInsert r key).2).entries.length = 1) := by
  constructor
  · intro ks
    exact runKeys_length_le ks initialRegistry (by simp [initialRegistry])
  · intro r key hbig
    unfold getOrInsert
    rw [clearIf_of_gt r hbig]
    simp [lookupTok]

/-- Witness for C5's amended theorem: an access that finds 1001 entries
clears the map and leaves a single entry. -/
theorem registry_bound_amended_witness :
    1000 < overfullRegistry.entries.length ∧
      ((getOrInsert overfullRegistry 5).2).entries.length = 1 :=
  ⟨by simp only [overfullRegistry, List.length_map, List.length_range]; omega,
    registry_bound_amended.2 overfullRegistry 5
      (by simp only [overfullRegistry, List.length_map, List.length_range]; omega)⟩

/-! ## Isolation-token freshness machinery (for C3) -/

theorem lookupTok_mem (es : List (Nat × Nat)) (key t : Nat)
    (h : lookupTok es key = some t) : (key, t) ∈ es := by
  induction es with
  | nil => simp [lookupTok] at h
  | cons e es ih =>
    rcases e with ⟨k, v⟩
    by_cases hk : key = k
    · subst hk
      simp [lookupTok] at h
      simp [h]
    · simp [lookupTok, hk] at h
      exact List.mem_cons_of_mem _ (ih h)

theorem getOrInsert_eq (r : IsolationRegistry) (key : Nat) :
    getOrInsert r key =
      match lookupTok (clearIf r).entries key with
      | some t => (t, clearIf r)
      | none => ((clearIf r).nextToken,
          ⟨(key, (clearIf r).nextToken) :: (clearIf r).entries,
           (clearIf r).nextToken + 1⟩) := rfl

/-- Either the (possibly cleared) map already has the key, or a fresh token
is inserted. -/
theorem getOrInsert_spec (r : IsolationRegistry) (key : Nat) :
    (∃ t, lookupTok (clearIf r).entries key = some t ∧
      getOrInsert r key = (t, clearIf r)) ∨
    (lookupTok (clearIf r).entries key = none ∧
      getOrInsert r key = ((clearIf r).nextToken,
        ⟨(key, (clearIf r).nextToken) :: (clearIf r).entries,
         (clearIf r).nextToken + 1⟩)) := by
  rcases h : lookupTok (clearIf r).entries key with _ | t
  · exact Or.inr ⟨rfl, by rw [getOrInsert_eq, h]⟩
  · exact Or.inl ⟨t, rfl, by rw [getOrInsert_eq, h]⟩

theorem clearIf_entries_sub (r : IsolationRegistry) :
    ∀ p ∈ (clearIf r).entries, p ∈ r.entries := by
  unfold clearIf
  split <;> simp

@[simp] theorem clearIf_nextToken (r : IsolationRegistry) :
    (clearIf r).nextToken = r.nextToken := by
  unfold clearIf
  split <;> rfl

@[simp] theorem sessionStep_none (r : IsolationRegistry) :
    sessionStep r none = (defaultTokenId, r) := rfl

@[simp] theorem sessionStep_some (r : IsolationRegistry) (key : Nat) :
    sessionStep r (some key) = getOrInsert r key := rfl

theorem RegInv_initial : RegInv initialRegistry := by
  refine ⟨?_, ?_, ?_⟩ <;> simp [initialRegistry]

theorem RegInv_clearIf (r : IsolationRegistry) (h : RegInv r) : RegInv (clearIf r) := by
  unfold clearIf
  split
  · exact ⟨by simp, by simp, h.2.2⟩
  · exact h

theorem RegInv_getOrInsert (r : IsolationRegistry) (key : Nat) (h : RegInv r) :
    RegInv ((getOrInsert r key).2) := by
  have h1 := RegInv_clearIf r h
  rcases getOrInsert_spec r key with ⟨t, hl, he⟩ | ⟨hl, he⟩ <;> rw [he]
  · exact h1
  · refine ⟨?_, ?_, ?_⟩
    · intro p hp
      rcases List.mem_cons.mp hp with rfl | hp'
      · refine ⟨h1.2.2, ?_⟩
        show (clearIf r).nextToken < (clearIf r).nextToken + 1
        omega
      · obtain ⟨hb1, hb2⟩ := h1.1 p hp'
        refine ⟨hb1, ?_⟩
        show p.2 < (clearIf r).nextToken + 1
        omega
    · intro p hp q hq hpq
      rcases List.mem_cons.mp hp with rfl | hp' <;> rcases List.mem_cons.mp hq with rfl | hq'
      · rfl
      · exfalso
        have hb := (h1.1 q hq').2
        have hpq' : (clearIf r).nextToken = q.2 := hpq
        omega
      · exfalso
        have hb := (h1.1 p hp').2
        have hpq' : p.2 = (clearIf r).nextToken := hpq
        omega
      · exact h1.2.1 p hp' q hq' hpq
    · show 1 ≤ (clearIf r).nextToken + 1
      omega

theorem RegInv_sessionStep (r : IsolationRegistry) (k : Option Nat) (h : RegInv r) :
    RegInv ((sessionStep r k).2) := by
  rcases k with _ | key
  · simpa using h
  · simpa using RegInv_getOrInsert r key h

theorem getOrInsert_token_pos (r : IsolationRegistry) (key : Nat) (h : RegInv r) :
    1 ≤ (getOrInsert r key).1 := by
  have h1 := RegInv_clearIf r h
  rcases getOrInsert_spec r key with ⟨t, hl, he⟩ | ⟨hl, he⟩ <;> rw [he]
  · exact (h1.1 _ (lookupTok_mem _ _ _ hl)).1
  · show 1 ≤ (clearIf r).nextToken
    exact h1.2.2

theorem TokProtected_step (key t : Nat) (r : IsolationRegistry) (k : Option Nat)
    (h : TokProtected key t r) : TokProtected key t ((sessionStep r k).2) := by
  rcases k with _ | key'
  · simpa using h
  · simp only [sessionStep_some]
    rcases getOrInsert_spec r key' with ⟨t', hl, he⟩ | ⟨hl, he⟩ <;> rw [he]
    · exact ⟨h.1, by simpa using h.2.1,
        fun p hp => h.2.2 p (clearIf_entries_sub r p hp)⟩
    · have hn := clearIf_nextToken r
      have hlt := h.2.1
      refine ⟨h.1, ?_, ?_⟩
      · show t < (clearIf r).nextToken + 1
        omega
      · intro p hp hpt
        rcases List.mem_cons.mp hp with rfl | hp'
        · exfalso
          have hpt' : (clearIf r).nextToken = t := hpt
          omega
        · exact h.2.2 p (clearIf_entries_sub r p hp') hpt

theorem TokProtected_estab (r : IsolationRegistry) (key : Nat) (h : RegInv r) :
    TokProtected key (getOrInsert r key).1 ((getOrInsert r key).2) := by
  have h1 := RegInv_clearIf r h
  rcases getOrInsert_spec r key with ⟨t, hl, he⟩ | ⟨hl, he⟩ <;> rw [he]
  · have hm := lookupTok_mem _ _ _ hl
    exact ⟨(h1.1 _ hm).1, (h1.1 _ hm).2,
      fun p hp hpt => h1.2.1 p hp (key, t) hm hpt⟩
  · refine ⟨?_, ?_, ?_⟩
    · show 1 ≤ (clearIf r).nextToken
      exact h1.2.2
    · show (clearIf r).nextToken < (clearIf r).nextToken + 1
      omega
    · intro p hp hpt
      rcases List.mem_cons.mp hp with rfl | hp'
      · rfl
      · exfalso
        have hb := (h1.1 p hp').2
        have hpt' : p.2 = (clearIf r).nextToken := hpt
        omega

/-- No later session whose key differs from `key` can ever receive the
protected token `t`. -/
theorem runKeys_protected_ne (ks : List (Option Nat)) :
    ∀ r key t, TokProtected key t r →
      ∀ p ∈ (runKeys r ks).1, p.1 ≠ some key → p.2 ≠ t := by
  induction ks with
  | nil =>
    intro r key t _ p hp
    simp at hp
  | cons k ks ih =>
    intro r key t hprot p hp hne
    rw [runKeys_cons] at hp
    rcases List.mem_cons.mp hp with rfl | hmem
    · rcases k with _ | key'
      · simp only [sessionStep_none]
        have := hprot.1
        simp [defaultTokenId]
        omega
      · have hne' : key' ≠ key := fun he => hne (by simp [he])
        simp only [sessionStep_some]
        rcases getOrInsert_spec r key' with ⟨t', hl, he⟩ | ⟨hl, he⟩ <;> rw [he]
        · intro hteq
          exact hne' (hprot.2.2 (key', t')
            (clearIf_entries_sub r _ (lookupTok_mem _ _ _ hl)) hteq)
        · have := hprot.2.1
          simp
          omega
    · exact ih ((sessionStep r k).2) key t (TokProtected_step key t r k hprot) p hmem hne

/-- Keyed sessions always receive a positive token (the shared default
token is `0`). -/
theorem runKeys_keyed_pos (ks : List (Option Nat)) :
    ∀ r, RegInv r → ∀ p ∈ (runKeys r ks).1, p.1 ≠ none → 1 ≤ p.2 := by
  induction ks with
  | nil =>
    intro r _ p hp
    simp at hp
  | cons k ks ih =>
    intro r hinv p hp hne
    rw [runKeys_cons] at hp
    rcases List.mem_cons.mp hp with rfl | hmem
    · rcases k with _ | key'
      · simp at hne
      · simpa using getOrInsert_token_pos r key' hinv
    · exact ih ((sessionStep r k).2) (RegInv_sessionStep r k hinv) p hmem hne

/-- The token of one session differs from the token of every later session
with a different key. -/
theorem runKeys_head_tail_ne (ks : List (Option Nat)) (r : IsolationRegistry)
    (k : Option Nat) (hinv : RegInv r) :
    ∀ q ∈ (runKeys (sessionStep r k).2 ks).1, q.1 ≠ k → q.2 ≠ (sessionStep r k).1 := by
  rcases k with _ | key
  · intro q hq hne
    have hpos := runKeys_keyed_pos ks ((sessionStep r none).2)
      (RegInv_sessionStep r none hinv) q hq hne
    simp [defaultTokenId]
    omega
  · intro q hq hne
    exact runKeys_protected_ne ks ((sessionStep r (some key)).2) key
      ((sessionStep r (some key)).1)
      (by simpa using TokProtected_estab r key hinv) q hq hne

/-- Part (a) of C3, generalized: over any run from a sane registry,
sessions with different isolation keys receive different tokens. -/
theorem runKeys_distinct_keys (ks : List (Option Nat)) :
    ∀ r, RegInv r → ∀ p ∈ (runKeys r ks).1, ∀ q ∈ (runKeys r ks).1,
      p.1 ≠ q.1 → p.2 ≠ q.2 := by
  induction ks with
  | nil =>
    intro r _ p hp
    simp at hp
  | cons k ks ih =>
    intro r hinv p hp q hq hne
    rw [runKeys_cons] at hp hq
    rcases List.mem_cons.mp hp with rfl | hp' <;> rcases List.mem_cons.mp hq with rfl | hq'
    · exact absurd rfl hne
    · exact fun he =>
        runKeys_head_tail_ne ks r k hinv q hq' (fun hk => hne hk.symm) he.symm
    · exact runKeys_head_tail_ne ks r k hinv p hp' hne
    · exact ih ((sessionStep r k).2) (RegInv_sessionStep r k hinv) p hp' q hq' hne

/-! ## Same-key stability machinery (for C3) -/

theorem getOrInsert_hit (r : IsolationRegistry) (key t : Nat)
    (hlen : r.entries.length ≤ 1000) (hl : lookupTok r.entries key = some t) :
    getOrInsert r key = (t, r) := by
  rw [getOrInsert_eq, clearIf_of_le r hlen, hl]

theorem getOrInsert_clear (r : IsolationRegistry) (key : Nat)
    (hbig : 1000 < r.entries.length) :
    getOrInsert r key = (r.nextToken, ⟨[(key, r.nextToken)], r.nextToken + 1⟩) := by
  rw [getOrInsert_eq, clearIf_of_gt r hbig]
  simp [lookupTok]

theorem getOrInsert_lookup_self (r : IsolationRegistry) (key : Nat) :
    lookupTok ((getOrInsert r key).2).entries key = some ((getOrInsert r key).1) := by
  rcases getOrInsert_spec r key with ⟨t, hl, he⟩ | ⟨hl, he⟩ <;> rw [he]
  · exact hl
  · simp [lookupTok]

theorem lookup_preserved_step (r : IsolationRegistry) (k : Option Nat) (key t : Nat)
    (hlen : r.entries.length ≤ 1000) (hl : lookupTok r.entries key = some t) :
    lookupTok ((sessionStep r k).2).entries key = some t := by
  rcases k with _ | key'
  · simpa using hl
  · simp only [sessionStep_some]
    have hc := clearIf_of_le r hlen
    rcases getOrInsert_spec r key' with ⟨t', hl', he⟩ | ⟨hl', he⟩ <;> rw [he]
    · rw [hc]
      exact hl
    · show lookupTok ((key', (clearIf r).nextToken) :: (clearIf r).entries) key = some t
      rw [hc] at hl' ⊢
      have hne : key ≠ key' := by
        intro hkk
        rw [hkk, hl'] at hl
        exact Option.noConfusion hl
      simp [lookupTok, hne, hl]

theorem runKeys_keyless_zero (ks : List (Option Nat)) :
    ∀ r, ∀ p ∈ (runKeys r ks).1, p.1 = none → p.2 = 0 := by
  induction ks with
  | nil =>
    intro r p hp
    simp at hp
  | cons k ks ih =>
    intro r p hp hkey
    rw [runKeys_cons] at hp
    rcases List.mem_cons.mp hp with rfl | hmem
    · have hk : k = none := hkey
      subst hk
      rfl
    · exact ih _ p hmem hkey

/-- While no clear intervenes, a key that already maps to `t` keeps
receiving `t`. -/
theorem runKeys_same_key_token (ks : List (Option Nat)) :
    ∀ r key t, noClearRun r ks = true → lookupTok r.entries key = some t →
      ∀ p ∈ (runKeys r ks).1, p.1 = some key → p.2 = t := by
  induction ks with
  | nil =>
    intro r key t _ _ p hp
    simp at hp
  | cons k ks ih =>
    intro r key t hnc hl p hp hkey
    simp only [noClearRun, Bool.and_eq_true, decide_eq_true_eq] at hnc
    obtain ⟨hlen, hrest⟩ := hnc
    rw [runKeys_cons] at hp
    rcases List.mem_cons.mp hp with rfl | hmem
    · have hk : k = some key := hkey
      subst hk
      show (sessionStep r (some key)).1 = t
      rw [sessionStep_some, getOrInsert_hit r key t hlen hl]
    · exact ih ((sessionStep r k).2) key t hrest
        (lookup_preserved_step r k key t hlen hl) p hmem hkey

theorem runKeys_head_tail_same (ks : List (Option Nat)) (r : IsolationRegistry)
    (k : Option Nat) (hrest : noClearRun ((sessionStep r k).2) ks = true) :
    ∀ q ∈ (runKeys ((sessionStep r k).2) ks).1, q.1 = k →
      q.2 = (sessionStep r k).1 := by
  intro q hq hqk
  rcases k with _ | key
  · exact runKeys_keyless_zero ks _ q hq hqk
  · exact runKeys_same_key_token ks ((sessionStep r (some key)).2) key
      ((sessionStep r (some key)).1) hrest
      (by simpa using getOrInsert_lookup_self r key) q hq hqk

/-- Part (b) of C3, generalized: in a run during which the eviction clear
never fires, sessions with equal isolation keys receive equal tokens. -/
theorem runKeys_noclear_same (ks : List (Option Nat)) :
    ∀ r, noClearRun r ks = true →
      ∀ p ∈ (runKeys r ks).1, ∀ q ∈ (runKeys r ks).1, p.1 = q.1 → p.2 = q.2 := by
  induction ks with
  | nil =>
    intro r _ p hp
    simp at hp
  | cons k ks ih =>
    intro r hnc p hp q hq hpq
    simp only [noClearRun, Bool.and_eq_true, decide_eq_true_eq] at hnc
    obtain ⟨hlen, hrest⟩ := hnc
    rw [runKeys_cons] at hp hq
    rcases List.mem_cons.mp hp with rfl | hp' <;> rcases List.mem_cons.mp hq with rfl | hq'
    · rfl
    · exact (runKeys_head_tail_same ks r k hrest q hq' hpq.symm).symm
    · exact runKeys_head_tail_same ks r k hrest p hp' hpq
    · exact ih _ hrest p hp' q hq' hpq

/-- C3 counterexample.  A session with isolation key `0` (the credential
hash of a fixed `(uname, passwd)`) gets token `1`; after 1000 sessions with
1000 other distinct keys the registry holds 1001 entries, so the next
session with the very same key `0` triggers the eviction clear and receives
the fresh token `1002 ≠ 1` — two sessions with equal credentials whose
tokens differ, within the registry's (process-long) lifetime. -/
theorem credential_isolation_counterexample :
    ((runKeys initialRegistry
        (some 0 :: ((List.range' 1 1000).map some ++ [some 0]))).1.head?.map
          Prod.fst = some (some 0)) ∧
    ((runKeys initialRegistry
        (some 0 :: ((List.range' 1 1000).map some ++ [some 0]))).1.getLast?.map
          Prod.fst = some (some 0)) ∧
    ((runKeys initialRegistry
        (some 0 :: ((List.range' 1 1000).map some ++ [some 0]))).1.head?.map
          Prod.snd = some 1) ∧
    ((runKeys initialRegistry
        (some 0 :: ((List.range' 1 1000).map some ++ [some 0]))).1.getLast?.map
          Prod.snd = some 1002) := by
  have hstep1 : sessionStep initialRegistry (some 0) =
      (1, ⟨[(0, 1)], 2⟩) := by decide
  have hf := runKeys_fresh (List.range' 1 1000) ⟨[(0, 1)], 2⟩
    (List.nodup_range' 1 1000)
    (by
      intro k hk
      rw [List.mem_range'] at hk
      obtain ⟨i, hi, rfl⟩ := hk
      simp)
    (by simp)
  have hlen2 :
      ((runKeys (⟨[(0, 1)], 2⟩ : IsolationRegistry)
        ((List.range' 1 1000).map some)).2).entries.length = 1001 := by
    have hll := congrArg List.length hf.1
    rw [List.length_map] at hll
    rw [hll, List.length_append, List.length_reverse, List.length_range']
    rfl
  have hnext2 :
      ((runKeys (⟨[(0, 1)], 2⟩ : IsolationRegistry)
        ((List.range' 1 1000).map some)).2).nextToken = 1002 := by
    rw [hf.2, List.length_range']
  have hclear := getOrInsert_clear
    ((runKeys (⟨[(0, 1)], 2⟩ : IsolationRegistry) ((List.range' 1 1000).map some)).2)
    0 (by omega)
  rw [hnext2] at hclear
  have hsplit : (runKeys initialRegistry
      (some 0 :: ((List.range' 1 1000).map some ++ [some 0]))).1 =
      (some 0, 1) ::
        ((runKeys (⟨[(0, 1)], 2⟩ : IsolationRegistry)
          ((List.range' 1 1000).map some)).1 ++ [(some 0, 1002)]) := by
    rw [runKeys_cons, hstep1]
    show ((some 0, 1) :: (runKeys (⟨[(0, 1)], 2⟩ : IsolationRegistry)
        ((List.range' 1 1000).map some ++ [some 0])).1) = _
    rw [runKeys_append]
    rw [runKeys_cons, sessionStep_some, hclear]
    rfl
  rw [hsplit]
  refine ⟨by simp, ?_, by simp, ?_⟩
  · rw [← List.cons_append, List.getLast?_concat]
    rfl
  · rw [← List.cons_append, List.getLast?_concat]
    rfl

/-- C3 amended.  Isolation-key stability holds in this form: the token a
session hands to the overlay connect call is produced by `sessionStep` on
the session's isolation key (credential hash first, else domain hash under
`auto_isolate_domains`, else no key and the shared default token); over any
sequence of sessions from startup, sessions whose isolation keys differ
never receive the same token, and — provided the capacity clear never fires
in between (every registry access finds at most 1000 entries) — sessions
with equal isolation keys always receive equal tokens. -/
theorem isolation_key_stability_amended (ks : List (Option Nat)) :
    (∀ r credHash autoIso host,
      selectToken r credHash autoIso host =
        sessionStep r (sessionKey credHash autoIso host)) ∧
    (∀ p ∈ (runKeys initialRegistry ks).1, ∀ q ∈ (runKeys initialRegistry ks).1,
      p.1 ≠ q.1 → p.2 ≠ q.2) ∧
    (noClearRun initialRegistry ks = true →
      ∀ p ∈ (runKeys initialRegistry ks).1, ∀ q ∈ (runKeys initialRegistry ks).1,
        p.1 = q.1 → p.2 = q.2) := by
  refine ⟨?_, ?_, ?_⟩
  · intro r ch aiso host
    rcases ch with _ | h
    · cases aiso <;> rfl
    · rfl
  · exact runKeys_distinct_keys ks initialRegistry RegInv_initial
  · intro hnc
    exact runKeys_noclear_same ks initialRegistry hnc

/-- Witness for C3's amended theorem on the three-session run
`[key 5, no key, key 5]`: the keyed and keyless sessions get different
tokens, and the two sessions with key 5 get the same token. -/
theorem isolation_key_stability_amended_witness :
    (some 5, 1) ∈ (runKeys initialRegistry [some 5, none, some 5]).1 ∧
    (none, 0) ∈ (runKeys initialRegistry [some 5, none, some 5]).1 ∧
    ((some 5 : Option Nat) ≠ none) ∧
    noClearRun initialRegistry [some 5, none, some 5] = true ∧
    (1 : Nat) ≠ 0 ∧ (1 : Nat) = 1 :=
  ⟨by decide, by decide, by decide, by decide,
    (isolation_key_stability_amended [some 5, none, some 5]).2.1 (some 5, 1)
      (by decide) (none, 0) (by decide) (by decide),
    (isolation_key_stability_amended [some 5, none, some 5]).2.2 (by decide)
      (some 5, 1) (by decide) (some 5, 1) (by decide) rfl⟩

/-! ## Relay-loop lemmas (for C7) -/

theorem zeroizing_copy_chunk (bs : List Nat) (rs : List ReadRes) (wres : List Bool)
    (buf : List Nat) :
    zeroizing_copy (ReadRes.chunk bs :: rs) wres buf =
      (CopyEv.readCall (ReadRes.chunk bs) ::
        CopyEv.writeAll bs (wres.headD true) ::
        CopyEv.zeroizeSlice bs.length ::
        (zeroizing_copy rs (wres.drop 1)
          (List.replicate bs.length 0 ++ buf.drop bs.length)).1,
       (zeroizing_copy rs (wres.drop 1)
          (List.replicate bs.length 0 ++ buf.drop bs.length)).2.1,
       (zeroizing_copy rs (wres.drop 1)
          (List.replicate bs.length 0 ++ buf.drop bs.length)).2.2) := by
  show (CopyEv.readCall (ReadRes.chunk bs) ::
      CopyEv.writeAll ((bs ++ buf.drop bs.length).take bs.length) (wres.headD true) ::
      CopyEv.zeroizeSlice bs.length ::
      (zeroizing_copy rs (wres.drop 1)
        (List.replicate bs.length 0 ++ (bs ++ buf.drop bs.length).drop bs.length)).1,
     _, _) = _
  rw [List.take_left, List.drop_left]

theorem zeroizing_copy_eof (rs : List ReadRes) (wres : List Bool) (buf : List Nat) :
    zeroizing_copy (ReadRes.eof :: rs) wres buf =
      ([CopyEv.readCall ReadRes.eof, CopyEv.zeroizeFull], CopyEnd.eofDone,
       List.replicate buf.length 0) := rfl

theorem zeroizing_copy_eof_buf (rs : List ReadRes) (wres : List Bool) (buf : List Nat) :
    (zeroizing_copy (ReadRes.eof :: rs) wres buf).2.2 =
      List.replicate buf.length 0 := rfl

theorem zeroizing_copy_end (reads : List ReadRes) :
    ∀ wres buf, (zeroizing_copy reads wres buf).2.1 = firstEnd reads := by
  induction reads with
  | nil =>
    intro wres buf
    rfl
  | cons rr rs ih =>
    intro wres buf
    cases rr with
    | chunk bs =>
      rw [zeroizing_copy_chunk]
      exact ih _ _
    | eof => rfl
    | fail => rfl

theorem zeroizing_copy_buf (reads : List ReadRes) :
    ∀ wres, (∀ bs, ReadRes.chunk bs ∈ reads → bs.length ≤ 8192) →
      (zeroizing_copy reads wres (List.replicate 8192 0)).2.2 =
        List.replicate 8192 0 := by
  induction reads with
  | nil =>
    intro wres _
    rfl
  | cons rr rs ih =>
    intro wres hwf
    cases rr with
    | eof =>
      rw [zeroizing_copy_eof_buf, List.length_replicate]
    | fail => rfl
    | chunk bs =>
      have hlen : bs.length ≤ 8192 := hwf bs (List.mem_cons_self _ _)
      rw [zeroizing_copy_chunk]
      have hbuf : List.replicate bs.length (0 : Nat) ++
          (List.replicate 8192 (0 : Nat)).drop bs.length =
          List.replicate 8192 (0 : Nat) := by
        rw [List.drop_replicate, ← List.replicate_add]
        congr 1
        omega
      rw [hbuf]
      exact ih _ fun bs' hb => hwf bs' (List.mem_cons_of_mem _ hb)

theorem zeroizing_copy_zeroizeFull (reads : List ReadRes) :
    ∀ wres buf, (CopyEv.zeroizeFull ∈ (zeroizing_copy reads wres buf).1 ↔
      firstEnd reads = CopyEnd.eofDone) := by
  induction reads with
  | nil =>
    intro wres buf
    simp [zeroizing_copy, firstEnd]
  | cons rr rs ih =>
    intro wres buf
    cases rr with
    | eof => simp [zeroizing_copy, firstEnd]
    | fail => simp [zeroizing_copy, firstEnd]
    | chunk bs =>
      rw [zeroizing_copy_chunk]
      show CopyEv.zeroizeFull ∈ (_ :: _ :: _ :: _) ↔ firstEnd (ReadRes.chunk bs :: rs) = _
      rw [show firstEnd (ReadRes.chunk bs :: rs) = firstEnd rs from rfl, ← ih (wres.drop 1)
        (List.replicate bs.length 0 ++ buf.drop bs.length)]
      simp

theorem zeroizing_copy_write_zeroize (reads : List ReadRes) :
    ∀ wres buf i bs ok,
      (zeroizing_copy reads wres buf).1[i]? = some (CopyEv.writeAll bs ok) →
      (zeroizing_copy reads wres buf).1[i + 1]? =
        some (CopyEv.zeroizeSlice bs.length) := by
  induction reads with
  | nil =>
    intro wres buf i bs ok h
    simp [zeroizing_copy] at h
  | cons rr rs ih =>
    intro wres buf i bs ok h
    cases rr with
    | eof =>
      rcases i with _ | _ | i <;> simp [zeroizing_copy] at h
    | fail =>
      rcases i with _ | i <;> simp [zeroizing_copy] at h
    | chunk bs' =>
      rw [zeroizing_copy_chunk] at h ⊢
      rcases i with _ | _ | _ | i
      · simp at h
      · simp at h
        obtain ⟨hbs, -⟩ := h
        subst hbs
        simp
      · simp at h
      · simp only [List.getElem?_cons_succ] at h ⊢
        exact ih _ _ i bs ok h

theorem zeroizing_copy_read_write (reads : List ReadRes) :
    ∀ wres buf i bs,
      (zeroizing_copy reads wres buf).1[i]? =
        some (CopyEv.readCall (ReadRes.chunk bs)) →
      ∃ ok, (zeroizing_copy reads wres buf).1[i + 1]? =
        some (CopyEv.writeAll bs ok) := by
  induction reads with
  | nil =>
    intro wres buf i bs h
    simp [zeroizing_copy] at h
  | cons rr rs ih =>
    intro wres buf i bs h
    cases rr with
    | eof =>
      rcases i with _ | _ | i <;> simp [zeroizing_copy] at h
    | fail =>
      rcases i with _ | i <;> simp [zeroizing_copy] at h
    | chunk bs' =>
      rw [zeroizing_copy_chunk] at h ⊢
      rcases i with _ | _ | _ | i
      · simp at h
        subst h
        exact ⟨wres.headD true, by simp⟩
      · simp at h
      · simp at h
      · simp only [List.getElem?_cons_succ] at h ⊢
        exact ih _ _ i bs h

/-- C7 counterexample.  With a reader that still has data and a writer
whose first `write_all` fails, the loop keeps reading: the `Result` of
`write_all` is discarded (`let _ =`), so a write-half error does not
terminate the splice — it runs on to the reader's EOF.  With a reader that
fails, the task returns early without the final `buf.zeroize()`. -/
theorem write_error_no_terminate_counterexample :
    ((zeroizing_copy [ReadRes.chunk [1], ReadRes.chunk [2], ReadRes.eof] [false]
        (List.replicate 8192 0)).1[1]? = some (CopyEv.writeAll [1] false)) ∧
    ((zeroizing_copy [ReadRes.chunk [1], ReadRes.chunk [2], ReadRes.eof] [false]
        (List.replicate 8192 0)).1[3]? =
      some (CopyEv.readCall (ReadRes.chunk [2]))) ∧
    ((zeroizing_copy [ReadRes.chunk [1], ReadRes.chunk [2], ReadRes.eof] [false]
        (List.replicate 8192 0)).2.1 = CopyEnd.eofDone) ∧
    (CopyEv.zeroizeFull ∉
      (zeroizing_copy [ReadRes.fail] [] (List.replicate 8192 0)).1) := by
  refine ⟨?_, ?_, ?_, ?_⟩
  · rw [zeroizing_copy_chunk]
    show (CopyEv.readCall (ReadRes.chunk [1]) ::
        CopyEv.writeAll [1] ([false].headD true) ::
        CopyEv.zeroizeSlice (List.length [1]) :: _)[1]? =
      some (CopyEv.writeAll [1] false)
    rw [List.getElem?_cons_succ, List.getElem?_cons_zero]
    rfl
  · rw [zeroizing_copy_chunk]
    simp only [List.getElem?_cons_succ]
    rw [zeroizing_copy_chunk]
    simp only [List.getElem?_cons_zero]
  · rw [zeroizing_copy_end]
    rfl
  · intro h
    rw [zeroizing_copy_zeroizeFull] at h
    exact CopyEnd.noConfusion h

/-- C7 amended.  Each splice-direction task reads into the fixed 8 KiB
buffer, issues one `write_all` of exactly the slice read (whose result is
discarded), and zeroizes that slice immediately after the write, before the
next read; the loop terminates exactly when the READ half reports EOF or an
error — a write-half error does not stop it — and the explicit final
`buf.zeroize()` runs only on the EOF path, though on every exit path the
buffer contents are all zeros because each used slice was already zeroed. -/
theorem zeroizing_copy_amended (reads : List ReadRes) (wres : List Bool)
    (hwf : chunksFit reads = true) :
    (zeroizing_copy reads wres (List.replicate 8192 0)).2.2 =
        List.replicate 8192 0 ∧
    (zeroizing_copy reads wres (List.replicate 8192 0)).2.1 = firstEnd reads ∧
    (CopyEv.zeroizeFull ∈ (zeroizing_copy reads wres (List.replicate 8192 0)).1 ↔
      firstEnd reads = CopyEnd.eofDone) ∧
    (∀ i bs ok,
      (zeroizing_copy reads wres (List.replicate 8192 0)).1[i]? =
        some (CopyEv.writeAll bs ok) →
      (zeroizing_copy reads wres (List.replicate 8192 0)).1[i + 1]? =
        some (CopyEv.zeroizeSlice bs.length)) ∧
    (∀ i bs,
      (zeroizing_copy reads wres (List.replicate 8192 0)).1[i]? =
        some (CopyEv.readCall (ReadRes.chunk bs)) →
      ∃ ok, (zeroizing_copy reads wres (List.replicate 8192 0)).1[i + 1]? =
        some (CopyEv.writeAll bs ok)) := by
  have hwf' : ∀ bs, ReadRes.chunk bs ∈ reads → bs.length ≤ 8192 := by
    intro bs hb
    have := List.all_eq_true.mp hwf _ hb
    simpa using this
  exact ⟨zeroizing_copy_buf reads wres hwf',
    zeroizing_copy_end reads wres _,
    zeroizing_copy_zeroizeFull reads wres _,
    fun i bs ok h => zeroizing_copy_write_zeroize reads wres _ i bs ok h,
    fun i bs h => zeroizing_copy_read_write reads wres _ i bs h⟩

/-- Witness for C7's amended theorem on the run `[chunk [7], eof]` with no
writer results recorded. -/
theorem zeroizing_copy_amended_witness :
    chunksFit [ReadRes.chunk [7], ReadRes.eof] = true ∧
    (zeroizing_copy [ReadRes.chunk [7], ReadRes.eof] [] (List.replicate 8192 0)).2.2 =
      List.replicate 8192 0 ∧
    (zeroizing_copy [ReadRes.chunk [7], ReadRes.eof] [] (List.replicate 8192 0)).2.1 =
      firstEnd [ReadRes.chunk [7], ReadRes.eof] :=
  ⟨by decide,
    (zeroizing_copy_amended [ReadRes.chunk [7], ReadRes.eof] [] (by decide)).1,
    (zeroizing_copy_amended [ReadRes.chunk [7], ReadRes.eof] [] (by decide)).2.1⟩

end Torrust
